import Mathlib

/-!
Verification of the embedded blobstore engine (crates/blobstore).

The Rust code is shallowly embedded: the engine's `HashMap`-backed state
becomes an association list keyed by `String`, u64/usize quantities become
`Nat`, byte vectors become `List Nat`, and `current_timestamp()` becomes an
explicit `t : Nat` parameter on the operations that call it.  Mutating
engine methods return the pair of the Rust `Result` and the post-state
(the Rust code never mutates on an error path, so the error branches
return the input state unchanged).
-/

namespace Zolvery

/-- Error type for blobstore operations (types.rs, `BlobstoreError`). -/
inductive BlobstoreError where
  | ContainerNotFound (name : String)
  | ContainerAlreadyExists (name : String)
  | ObjectNotFound (name : String)
  | ObjectAlreadyExists (name : String)
  | InvalidRange (s e : Nat)
  | ContainerNotEmpty (name : String)
  | InvalidOperation (msg : String)
  | IoError (msg : String)
  | InternalError (msg : String)
  deriving DecidableEq

/-- Container metadata record (types.rs, `ContainerMetadata`). -/
structure ContainerMetadata where
  name : String
  created_at : Nat
  deriving DecidableEq

/-- Object metadata record (types.rs, `ObjectMetadata`). -/
structure ObjectMetadata where
  name : String
  container : String
  created_at : Nat
  size : Nat
  deriving DecidableEq

/-- Cross-container object address (types.rs, `ObjectId`). -/
structure ObjectId where
  container : String
  object : String
  deriving DecidableEq

/-- A stored object: metadata plus the byte payload (types.rs, `StoredObject`). -/
structure StoredObject where
  metadata : ObjectMetadata
  data : List Nat
  deriving DecidableEq

/-- A stored container: metadata plus its object map (types.rs, `StoredContainer`). -/
structure StoredContainer where
  metadata : ContainerMetadata
  objects : List (String × StoredObject)
  deriving DecidableEq

/-- The engine state: the container map of `EmbeddedStorage` (storage.rs),
with `HashMap` modelled as an association list. -/
abbrev Storage := List (String × StoredContainer)

/-- `HashMap::get` on the association-list model. -/
def lookupA {α : Type} (k : String) : List (String × α) → Option α
  | [] => none
  | (k2, v) :: rest => if k2 = k then some v else lookupA k rest

/-- `HashMap::insert` on the association-list model: replaces the binding of
`k` if present, otherwise appends it. -/
def insertA {α : Type} (k : String) (v : α) : List (String × α) → List (String × α)
  | [] => [(k, v)]
  | (k2, v2) :: rest => if k2 = k then (k, v) :: rest else (k2, v2) :: insertA k v rest

/-- In-place mutation through `HashMap::get_mut` on the association-list
model: applies `f` to the binding of `k`, if any. -/
def updateA {α : Type} (k : String) (f : α → α) : List (String × α) → List (String × α)
  | [] => []
  | (k2, v2) :: rest => if k2 = k then (k2, f v2) :: rest else (k2, v2) :: updateA k f rest

/-- `HashMap::remove` on the association-list model: removes every binding
of `k` (a well-formed map holds at most one). -/
def eraseA {α : Type} (k : String) : List (String × α) → List (String × α)
  | [] => []
  | (k2, v2) :: rest => if k2 = k then eraseA k rest else (k2, v2) :: eraseA k rest

/-- Range validation (types.rs, `validate_range`). -/
def validate_range (s e size : Nat) : Except BlobstoreError Unit :=
  if s > e then .error (.InvalidRange s e)
  else if s ≥ size ∧ size > 0 then .error (.InvalidRange s e)
  else .ok ()

/-- The modulus of Rust's `u64` arithmetic. -/
def u64Size : Nat := 2 ^ 64

namespace EmbeddedStorage

/-- storage.rs, `EmbeddedStorage::create_container`. -/
def create_container (name : String) (t : Nat) (s : Storage) :
    Except BlobstoreError Unit × Storage :=
  match lookupA name s with
  | some _ => (.error (.ContainerAlreadyExists name), s)
  | none =>
    let metadata : ContainerMetadata := { name := name, created_at := t }
    (.ok (), insertA name { metadata := metadata, objects := [] } s)

/-- storage.rs, `EmbeddedStorage::container_exists`. -/
def container_exists (name : String) (s : Storage) : Bool :=
  (lookupA name s).isSome

/-- storage.rs, `EmbeddedStorage::get_container_metadata`. -/
def get_container_metadata (name : String) (s : Storage) :
    Except BlobstoreError ContainerMetadata :=
  match lookupA name s with
  | some cont => .ok cont.metadata
  | none => .error (.ContainerNotFound name)

/-- storage.rs, `EmbeddedStorage::delete_container`: requires the container
to exist and be empty. -/
def delete_container (name : String) (s : Storage) :
    Except BlobstoreError Unit × Storage :=
  match lookupA name s with
  | some cont =>
    if cont.objects.isEmpty then (.ok (), eraseA name s)
    else (.error (.ContainerNotEmpty name), s)
  | none => (.error (.ContainerNotFound name), s)

/-- storage.rs, `EmbeddedStorage::list_objects`: the object names, sorted. -/
def list_objects (container_name : String) (s : Storage) :
    Except BlobstoreError (List String) :=
  match lookupA container_name s with
  | some cont => .ok (List.insertionSort (· ≤ ·) (cont.objects.map Prod.fst))
  | none => .error (.ContainerNotFound container_name)

/-- storage.rs, `EmbeddedStorage::get_object_data`: optional inclusive
range.  The `u64` sum `end + 1` wraps modulo `2^64` (release-mode overflow
semantics; the cast to `usize` is the identity on a 64-bit target), and
`data[start_idx..end_idx]` is `(data.take end_idx).drop start_idx` (the
Rust indexing panics when the clamped end precedes `start_idx`, a region no
theorem below relies on). -/
def get_object_data (container_name object_name : String)
    (start? e? : Option Nat) (s : Storage) : Except BlobstoreError (List Nat) :=
  match lookupA container_name s with
  | none => .error (.ContainerNotFound container_name)
  | some cont =>
    match lookupA object_name cont.objects with
    | none => .error (.ObjectNotFound object_name)
    | some obj =>
      match start?, e? with
      | some st, some e =>
        match validate_range st e obj.data.length with
        | .error err => .error err
        | .ok _ =>
          let endIdx := min ((e + 1) % u64Size) obj.data.length
          .ok ((obj.data.take endIdx).drop st)
      | _, _ => .ok obj.data

/-- storage.rs, `EmbeddedStorage::put_object_data`: insert or wholesale
replace, recomputing `size` and `created_at`. -/
def put_object_data (container_name object_name : String) (data : List Nat)
    (t : Nat) (s : Storage) : Except BlobstoreError Unit × Storage :=
  match lookupA container_name s with
  | none => (.error (.ContainerNotFound container_name), s)
  | some _ =>
    let metadata : ObjectMetadata :=
      { name := object_name, container := container_name, created_at := t,
        size := data.length }
    (.ok (),
     updateA container_name
       (fun cont => { cont with
         objects := insertA object_name { metadata := metadata, data := data } cont.objects })
       s)

/-- storage.rs, `EmbeddedStorage::delete_object`: absence of the object is
not an error. -/
def delete_object (container_name object_name : String) (s : Storage) :
    Except BlobstoreError Unit × Storage :=
  match lookupA container_name s with
  | none => (.error (.ContainerNotFound container_name), s)
  | some _ =>
    (.ok (),
     updateA container_name
       (fun cont => { cont with objects := eraseA object_name cont.objects }) s)

/-- storage.rs, `EmbeddedStorage::delete_objects`: each missing name is
silently ignored. -/
def delete_objects (container_name : String) (object_names : List String)
    (s : Storage) : Except BlobstoreError Unit × Storage :=
  match lookupA container_name s with
  | none => (.error (.ContainerNotFound container_name), s)
  | some _ =>
    (.ok (),
     updateA container_name
       (fun cont => { cont with
         objects := object_names.foldl (fun os nm => eraseA nm os) cont.objects }) s)

/-- storage.rs, `EmbeddedStorage::object_exists`. -/
def object_exists (container_name object_name : String) (s : Storage) :
    Except BlobstoreError Bool :=
  match lookupA container_name s with
  | none => .error (.ContainerNotFound container_name)
  | some cont => .ok (lookupA object_name cont.objects).isSome

/-- storage.rs, `EmbeddedStorage::get_object_metadata`. -/
def get_object_metadata (container_name object_name : String) (s : Storage) :
    Except BlobstoreError ObjectMetadata :=
  match lookupA container_name s with
  | none => .error (.ContainerNotFound container_name)
  | some cont =>
    match lookupA object_name cont.objects with
    | none => .error (.ObjectNotFound object_name)
    | some obj => .ok obj.metadata

/-- storage.rs, `EmbeddedStorage::clear_container`: empties the object map,
keeping the container metadata. -/
def clear_container (container_name : String) (s : Storage) :
    Except BlobstoreError Unit × Storage :=
  match lookupA container_name s with
  | none => (.error (.ContainerNotFound container_name), s)
  | some _ =>
    (.ok (), updateA container_name (fun cont => { cont with objects := [] }) s)

/-- storage.rs, `EmbeddedStorage::copy_object`: clone the source object,
check the destination container, rewrite the metadata (`name`, `container`,
`created_at`), insert into the destination map. -/
def copy_object (src dest : ObjectId) (t : Nat) (s : Storage) :
    Except BlobstoreError Unit × Storage :=
  match lookupA src.container s with
  | none => (.error (.ContainerNotFound src.container), s)
  | some srcCont =>
    match lookupA src.object srcCont.objects with
    | none => (.error (.ObjectNotFound src.object), s)
    | some srcObj =>
      if (lookupA dest.container s).isSome then
        let destObj : StoredObject :=
          { srcObj with metadata :=
            { srcObj.metadata with
              name := dest.object, container := dest.container, created_at := t } }
        (.ok (),
         updateA dest.container
           (fun cont => { cont with objects := insertA dest.object destObj cont.objects }) s)
      else (.error (.ContainerNotFound dest.container), s)

/-- storage.rs, `EmbeddedStorage::move_object`: `copy_object` then
`delete_object` of the source, not atomic across the two steps. -/
def move_object (src dest : ObjectId) (t : Nat) (s : Storage) :
    Except BlobstoreError Unit × Storage :=
  match copy_object src dest t s with
  | (.error e, s1) => (.error e, s1)
  | (.ok _, s1) => delete_object src.container src.object s1

end EmbeddedStorage

/-- Convenience accessor: the stored object at `(c, o)`, if any. -/
def getObject (c o : String) (s : Storage) : Option StoredObject :=
  match lookupA c s with
  | none => none
  | some cont => lookupA o cont.objects

namespace Blobstore

/-- blobstore.rs, public `delete_container`: clears all objects first, then
deletes the container itself. -/
def delete_container (name : String) (s : Storage) :
    Except BlobstoreError Unit × Storage :=
  match EmbeddedStorage.clear_container name s with
  | (.error e, s1) => (.error e, s1)
  | (.ok _, s1) => EmbeddedStorage.delete_container name s1

end Blobstore

/-- values.rs, `OutgoingValue`: the staged-write buffer, a byte accumulator
plus the one-way finished flag. -/
structure OutgoingValue where
  data : List Nat
  finished : Bool
  deriving DecidableEq

namespace OutgoingValue

/-- values.rs, `OutgoingValue::new`. -/
def new : OutgoingValue := { data := [], finished := false }

/-- values.rs, `OutgoingValueStream::write`: append while unfinished. -/
def write (v : OutgoingValue) (chunk : List Nat) : Except BlobstoreError OutgoingValue :=
  if v.finished then .error (.InvalidOperation "Cannot write to finished outgoing value")
  else .ok { v with data := v.data ++ chunk }

/-- values.rs, `OutgoingValue::finish`: one-way `Open → Finished`. -/
def finish (v : OutgoingValue) : Except BlobstoreError OutgoingValue :=
  if v.finished then .error (.InvalidOperation "Outgoing value already finished")
  else .ok { v with finished := true }

/-- values.rs, `OutgoingValue::get_data`: only available after finishing. -/
def get_data (v : OutgoingValue) : Except BlobstoreError (List Nat) :=
  if v.finished then .ok v.data
  else .error (.InvalidOperation "Outgoing value not finished yet")

/-- values.rs, `OutgoingValue::is_finished`. -/
def is_finished (v : OutgoingValue) : Bool := v.finished

end OutgoingValue

namespace Container

/-- container.rs, `Container::write_data`: rejects an unfinished staged
value with `InvalidOperation`, otherwise forwards the accumulated bytes to
the engine's `put_object_data`.  `cname` is the handle's container name. -/
def write_data (cname name : String) (v : OutgoingValue) (t : Nat) (s : Storage) :
    Except BlobstoreError Unit × Storage :=
  if !v.is_finished then
    (.error (.InvalidOperation "OutgoingValue must be finished before writing"), s)
  else
    match v.get_data with
    | .error e => (.error e, s)
    | .ok d => EmbeddedStorage.put_object_data cname name d t s

end Container

/-- stream.rs, `StreamObjectNames`: snapshot of names plus cursor position. -/
structure StreamObjectNames where
  objects : List String
  position : Nat
  deriving DecidableEq

namespace StreamObjectNames

/-- stream.rs, `StreamObjectNames::new`: sorts the snapshot on construction. -/
def new (objects : List String) : StreamObjectNames :=
  { objects := List.insertionSort (· ≤ ·) objects, position := 0 }

/-- stream.rs, `StreamObjectNames::read_stream_object_names`: returns the
batch, the end-of-stream flag, and the advanced cursor (the Rust method
mutates `self` and always returns `Ok`, modelled by the plain pair). -/
def read_stream_object_names (s : StreamObjectNames) (len : Nat) :
    (List String × Bool) × StreamObjectNames :=
  let remaining := s.objects.length - s.position
  if remaining = 0 then (([], true), s)
  else
    let to_read := min len remaining
    let end_position := s.position + to_read
    let result := (s.objects.drop s.position).take to_read
    ((result, decide (s.objects.length ≤ end_position)),
     { s with position := end_position })

/-- stream.rs, `StreamObjectNames::skip_stream_object_names`: returns the
count actually skipped, the end flag, and the advanced cursor. -/
def skip_stream_object_names (s : StreamObjectNames) (num : Nat) :
    (Nat × Bool) × StreamObjectNames :=
  let remaining := s.objects.length - s.position
  if remaining = 0 then ((0, true), s)
  else
    let to_skip := min num remaining
    ((to_skip, decide (s.objects.length ≤ s.position + to_skip)),
     { s with position := s.position + to_skip })

/-- stream.rs, `StreamObjectNames::total_count`. -/
def total_count (s : StreamObjectNames) : Nat := s.objects.length

/-- stream.rs, `StreamObjectNames::is_end`. -/
def is_end (s : StreamObjectNames) : Bool := decide (s.objects.length ≤ s.position)

/-- Fuelled loop calling `read_stream_object_names` until the end flag is
true, concatenating the batches (the caller-side pagination loop of the
spec's §8 pagination property). -/
def readChunksAux (n : Nat) : Nat → StreamObjectNames → List String
  | 0, _ => []
  | fuel + 1, s =>
    let r := read_stream_object_names s n
    if r.1.2 then r.1.1
    else r.1.1 ++ readChunksAux n fuel r.2

/-- Repeatedly read `n` items until the end flag is true, concatenating all
batches.  The fuel bound suffices whenever `0 < n`. -/
def readChunks (n : Nat) (s : StreamObjectNames) : List String :=
  readChunksAux n (s.objects.length + 1) s

end StreamObjectNames

/-- One engine mutation, for the reachability statement of the size
invariant; timestamps are carried explicitly. -/
inductive Op where
  | createContainer (name : String) (t : Nat)
  | deleteContainer (name : String)
  | clearContainer (name : String)
  | putObject (c o : String) (data : List Nat) (t : Nat)
  | deleteObject (c o : String)
  | deleteObjects (c : String) (names : List String)
  | copyObject (src dest : ObjectId) (t : Nat)
  | moveObject (src dest : ObjectId) (t : Nat)

/-- Apply one engine operation to the state. -/
def applyOp (op : Op) (s : Storage) : Except BlobstoreError Unit × Storage :=
  match op with
  | .createContainer name t => EmbeddedStorage.create_container name t s
  | .deleteContainer name => EmbeddedStorage.delete_container name s
  | .clearContainer name => EmbeddedStorage.clear_container name s
  | .putObject c o data t => EmbeddedStorage.put_object_data c o data t s
  | .deleteObject c o => EmbeddedStorage.delete_object c o s
  | .deleteObjects c names => EmbeddedStorage.delete_objects c names s
  | .copyObject src dest t => EmbeddedStorage.copy_object src dest t s
  | .moveObject src dest t => EmbeddedStorage.move_object src dest t s

/-- Run a sequence of engine operations from a state, keeping the state of
each step whether it succeeded or failed. -/
def runOps (ops : List Op) (s : Storage) : Storage :=
  ops.foldl (fun st op => (applyOp op st).2) s

/-- The size invariant: every stored object's `metadata.size` equals the
length of its byte payload. -/
def SizeInv (s : Storage) : Prop :=
  ∀ p ∈ s, ∀ q ∈ p.2.objects, q.2.metadata.size = q.2.data.length

/-! ### Association-list lemmas -/

theorem lookupA_insertA_self {α : Type} (k : String) (v : α) (l : List (String × α)) :
    lookupA k (insertA k v l) = some v := by
  induction l with
  | nil => simp [insertA, lookupA]
  | cons p rest ih =>
    obtain ⟨k2, v2⟩ := p
    by_cases h : k2 = k
    · simp [insertA, h, lookupA]
    · simp [insertA, h, lookupA, ih]

theorem lookupA_insertA_ne {α : Type} {k k2 : String} (hne : k2 ≠ k) (v : α)
    (l : List (String × α)) : lookupA k2 (insertA k v l) = lookupA k2 l := by
  have hks : k ≠ k2 := Ne.symm hne
  induction l with
  | nil => simp [insertA, lookupA, hks]
  | cons p rest ih =>
    obtain ⟨k3, v3⟩ := p
    by_cases h : k3 = k
    · subst h
      simp [insertA, lookupA, hks]
    · simp only [insertA, if_neg h, lookupA]
      by_cases h2 : k3 = k2 <;> simp [h2, ih]

theorem lookupA_updateA_self {α : Type} (k : String) (f : α → α) (l : List (String × α)) :
    lookupA k (updateA k f l) = (lookupA k l).map f := by
  induction l with
  | nil => simp [updateA, lookupA]
  | cons p rest ih =>
    obtain ⟨k2, v2⟩ := p
    by_cases h : k2 = k
    · simp [updateA, h, lookupA]
    · simp [updateA, h, lookupA, ih]

theorem lookupA_updateA_ne {α : Type} {k k2 : String} (hne : k2 ≠ k) (f : α → α)
    (l : List (String × α)) : lookupA k2 (updateA k f l) = lookupA k2 l := by
  have hks : k ≠ k2 := Ne.symm hne
  induction l with
  | nil => simp [updateA, lookupA]
  | cons p rest ih =>
    obtain ⟨k3, v3⟩ := p
    by_cases h : k3 = k
    · subst h
      simp [updateA, lookupA, hks]
    · simp only [updateA, if_neg h, lookupA]
      by_cases h2 : k3 = k2 <;> simp [h2, ih]

theorem lookupA_eraseA_self {α : Type} (k : String) (l : List (String × α)) :
    lookupA k (eraseA k l) = none := by
  induction l with
  | nil => simp [eraseA, lookupA]
  | cons p rest ih =>
    obtain ⟨k2, v2⟩ := p
    by_cases h : k2 = k
    · simp [eraseA, h, ih]
    · simp [eraseA, h, lookupA, ih]

theorem lookupA_eraseA_ne {α : Type} {k k2 : String} (hne : k2 ≠ k)
    (l : List (String × α)) : lookupA k2 (eraseA k l) = lookupA k2 l := by
  have hks : k ≠ k2 := Ne.symm hne
  induction l with
  | nil => simp [eraseA, lookupA]
  | cons p rest ih =>
    obtain ⟨k3, v3⟩ := p
    by_cases h : k3 = k
    · subst h
      simp [eraseA, lookupA, hks, ih]
    · simp only [eraseA, if_neg h, lookupA]
      by_cases h2 : k3 = k2 <;> simp [h2, ih]

theorem lookupA_mem {α : Type} {k : String} {v : α} {l : List (String × α)}
    (h : lookupA k l = some v) : (k, v) ∈ l := by
  induction l with
  | nil => simp [lookupA] at h
  | cons p rest ih =>
    obtain ⟨k2, v2⟩ := p
    by_cases h2 : k2 = k
    · subst h2
      simp [lookupA] at h
      simp [h]
    · simp [lookupA, h2] at h
      exact List.mem_cons_of_mem _ (ih h)

theorem mem_insertA {α : Type} {p : String × α} {k : String} {v : α}
    {l : List (String × α)} (h : p ∈ insertA k v l) : p = (k, v) ∨ p ∈ l := by
  induction l with
  | nil => simp [insertA] at h; simp [h]
  | cons q rest ih =>
    obtain ⟨k2, v2⟩ := q
    by_cases h2 : k2 = k
    · simp [insertA, h2] at h
      rcases h with h | h
      · exact Or.inl h
      · exact Or.inr (List.mem_cons_of_mem _ h)
    · simp only [insertA, if_neg h2] at h
      rcases List.mem_cons.mp h with h | h
      · exact Or.inr (by simp [h])
      · rcases ih h with h | h
        · exact Or.inl h
        · exact Or.inr (List.mem_cons_of_mem _ h)

theorem mem_updateA {α : Type} {p : String × α} {k : String} {f : α → α}
    {l : List (String × α)} (h : p ∈ updateA k f l) :
    p ∈ l ∨ ∃ v, (k, v) ∈ l ∧ p = (k, f v) := by
  induction l with
  | nil => simp [updateA] at h
  | cons q rest ih =>
    obtain ⟨k2, v2⟩ := q
    by_cases h2 : k2 = k
    · subst h2
      simp only [updateA, if_pos rfl] at h
      rcases List.mem_cons.mp h with h | h
      · exact Or.inr ⟨v2, by simp, h⟩
      · exact Or.inl (List.mem_cons_of_mem _ h)
    · simp only [updateA, if_neg h2] at h
      rcases List.mem_cons.mp h with h | h
      · exact Or.inl (by simp [h])
      · rcases ih h with h | ⟨v, hv, hp⟩
        · exact Or.inl (List.mem_cons_of_mem _ h)
        · exact Or.inr ⟨v, List.mem_cons_of_mem _ hv, hp⟩

theorem mem_eraseA {α : Type} {p : String × α} {k : String}
    {l : List (String × α)} (h : p ∈ eraseA k l) : p ∈ l := by
  induction l with
  | nil => simp [eraseA] at h
  | cons q rest ih =>
    obtain ⟨k2, v2⟩ := q
    by_cases h2 : k2 = k
    · simp only [eraseA, if_pos h2] at h
      exact List.mem_cons_of_mem _ (ih h)
    · simp only [eraseA, if_neg h2] at h
      rcases List.mem_cons.mp h with h | h
      · simp [h]
      · exact List.mem_cons_of_mem _ (ih h)

theorem mem_foldl_eraseA {α : Type} {p : String × α} (names : List String)
    (l : List (String × α))
    (h : p ∈ names.foldl (fun os nm => eraseA nm os) l) : p ∈ l := by
  induction names generalizing l with
  | nil => simpa using h
  | cons nm rest ih =>
    simp only [List.foldl_cons] at h
    exact mem_eraseA (ih _ h)

/-! ### Listing-cursor normal forms -/

theorem read_norm (s : StreamObjectNames) (n : Nat)
    (h : s.position ≤ s.objects.length) :
    s.read_stream_object_names n =
      (((s.objects.drop s.position).take n,
        decide (s.objects.length ≤ s.position + n)),
       ⟨s.objects, min (s.position + n) s.objects.length⟩) := by
  obtain ⟨objs, pos⟩ := s
  simp only at h
  simp only [StreamObjectNames.read_stream_object_names]
  by_cases hrem : objs.length - pos = 0
  · have hpos : pos = objs.length := by omega
    subst hpos
    have hmin : min (objs.length + n) objs.length = objs.length := by omega
    have hdec : decide (objs.length ≤ objs.length + n) = true :=
      decide_eq_true (Nat.le_add_right _ _)
    simp [if_pos hrem, List.drop_length, hmin, hdec]
  · have hL : objs.length - pos = (objs.drop pos).length :=
      (List.length_drop pos objs).symm
    have h1 : (objs.drop pos).take (min n (objs.length - pos))
        = (objs.drop pos).take n := by
      rw [hL, ← List.take_take, List.take_length]
    have h2 : decide (objs.length ≤ pos + min n (objs.length - pos))
        = decide (objs.length ≤ pos + n) := decide_eq_decide.mpr (by omega)
    have h3 : pos + min n (objs.length - pos) = min (pos + n) objs.length := by
      omega
    simp [if_neg hrem, h1, h2, h3]

theorem skip_norm (s : StreamObjectNames) (n : Nat)
    (h : s.position ≤ s.objects.length) :
    s.skip_stream_object_names n =
      ((min n (s.objects.length - s.position),
        decide (s.objects.length ≤ s.position + n)),
       ⟨s.objects, min (s.position + n) s.objects.length⟩) := by
  obtain ⟨objs, pos⟩ := s
  simp only at h
  simp only [StreamObjectNames.skip_stream_object_names]
  by_cases hrem : objs.length - pos = 0
  · have hpos : pos = objs.length := by omega
    subst hpos
    have hmin : min (objs.length + n) objs.length = objs.length := by omega
    have hdec : decide (objs.length ≤ objs.length + n) = true :=
      decide_eq_true (Nat.le_add_right _ _)
    simp [if_pos hrem, hmin, hdec]
  · have h2 : decide (objs.length ≤ pos + min n (objs.length - pos))
        = decide (objs.length ≤ pos + n) := decide_eq_decide.mpr (by omega)
    have h3 : pos + min n (objs.length - pos) = min (pos + n) objs.length := by
      omega
    simp [if_neg hrem, h2, h3]

theorem readChunksAux_drop (n : Nat) (hn : 0 < n) :
    ∀ (fuel : Nat) (s : StreamObjectNames), s.position ≤ s.objects.length →
      s.objects.length - s.position < fuel →
      StreamObjectNames.readChunksAux n fuel s = s.objects.drop s.position := by
  intro fuel
  induction fuel with
  | zero => intro s _ hf; omega
  | succ fuel ih =>
    intro s h hf
    rw [StreamObjectNames.readChunksAux, read_norm s n h]
    by_cases hP : s.objects.length ≤ s.position + n
    · simp only [decide_eq_true_eq, if_pos hP]
      exact List.take_of_length_le (by rw [List.length_drop]; omega)
    · simp only [decide_eq_true_eq, if_neg hP]
      have hmin : min (s.position + n) s.objects.length = s.position + n := by omega
      rw [hmin]
      have hrec := ih ⟨s.objects, s.position + n⟩ (by simp; omega) (by simp; omega)
      simp only at hrec
      rw [hrec]
      rw [← List.drop_drop, List.take_append_drop]

/-! ### Claim theorems for the listing cursor -/

/-- C8: for every cursor state (with the cursor inside the snapshot) and
every requested count `n`, `read_stream_object_names` returns the next
`min n remaining` items starting at the cursor position, with an
end-of-stream flag that is true iff the cursor position equals the
snapshot's total length after the read; reading with nothing remaining
returns an empty batch with the flag true. -/
theorem claim_C8 (s : StreamObjectNames) (n : Nat)
    (h : s.position ≤ s.objects.length) :
    (s.read_stream_object_names n).1.1 = (s.objects.drop s.position).take n
    ∧ (s.read_stream_object_names n).1.1.length
        = min n (s.objects.length - s.position)
    ∧ ((s.read_stream_object_names n).1.2 = true ↔
        (s.read_stream_object_names n).2.position = s.objects.length)
    ∧ (s.objects.length - s.position = 0 →
        (s.read_stream_object_names n).1.1 = []
        ∧ (s.read_stream_object_names n).1.2 = true) := by
  rw [read_norm s n h]
  refine ⟨rfl, ?_, ?_, ?_⟩
  · simp [List.length_take, List.length_drop]
  · simp only [decide_eq_true_eq]
    omega
  · intro h0
    have hnil : s.objects.drop s.position = [] := List.drop_eq_nil_of_le (by omega)
    constructor
    · simp [hnil]
    · simp only [decide_eq_true_eq]
      omega

/-- C8 witness: the theorem applied to a concrete cursor over three names
positioned at index 1, reading 5; the cursor-bound hypothesis holds. -/
theorem claim_C8_witness :
    (1 : Nat) ≤ 3
    ∧ ((⟨["a", "b", "c"], 1⟩ : StreamObjectNames).read_stream_object_names 5).1.1
        = ((["a", "b", "c"] : List String).drop 1).take 5 :=
  ⟨by decide, (claim_C8 ⟨["a", "b", "c"], 1⟩ 5 (by decide)).1⟩

/-- C7: for every cursor built by `StreamObjectNames.new`: the snapshot is
lexicographically sorted ascending; repeatedly calling read(n) (n positive)
until the end flag is true and concatenating the batches yields the same
sequence as one read of the total count; and skip(n) followed by read(k)
yields exactly the items a single read(n+k) would yield from index n
onward. -/
theorem claim_C7 :
    (∀ l : List String, List.Sorted (· ≤ ·) (StreamObjectNames.new l).objects)
    ∧ (∀ (l : List String) (n : Nat), 0 < n →
        StreamObjectNames.readChunks n (StreamObjectNames.new l) =
          ((StreamObjectNames.new l).read_stream_object_names
              (StreamObjectNames.new l).total_count).1.1)
    ∧ (∀ (s : StreamObjectNames) (n k : Nat), s.position ≤ s.objects.length →
        (((s.skip_stream_object_names n).2).read_stream_object_names k).1.1 =
          ((s.read_stream_object_names (n + k)).1.1).drop n) := by
  refine ⟨?_, ?_, ?_⟩
  · intro l
    exact List.sorted_insertionSort _ l
  · intro l n hn
    have h0 : (StreamObjectNames.new l).position
        ≤ (StreamObjectNames.new l).objects.length := Nat.zero_le _
    rw [StreamObjectNames.readChunks,
        readChunksAux_drop n hn _ (StreamObjectNames.new l) h0 (by omega),
        read_norm _ _ h0]
    simp [StreamObjectNames.new, StreamObjectNames.total_count, List.take_length]
  · intro s n k hs
    rw [skip_norm s n hs]
    have hmle : min (s.position + n) s.objects.length ≤ s.objects.length :=
      Nat.min_le_right _ _
    rw [read_norm ⟨s.objects, min (s.position + n) s.objects.length⟩ k hmle,
        read_norm s (n + k) hs]
    have hR : ((s.objects.drop s.position).take (n + k)).drop n
        = (s.objects.drop (s.position + n)).take k := by
      rw [List.drop_take, Nat.add_sub_cancel_left, List.drop_drop]
    rw [hR]
    by_cases hc : s.position + n ≤ s.objects.length
    · rw [Nat.min_eq_left hc]
    · have h1 : s.objects.drop (min (s.position + n) s.objects.length) = [] :=
        List.drop_eq_nil_of_le (by omega)
      have h2 : s.objects.drop (s.position + n) = [] :=
        List.drop_eq_nil_of_le (by omega)
      rw [h1, h2]

/-- C7 witness: instantiations of the three parts at concrete inputs,
discharging the positivity and cursor-bound hypotheses. -/
theorem claim_C7_witness :
    List.Sorted (· ≤ ·) (StreamObjectNames.new ["b", "a"]).objects
    ∧ (0 : Nat) < 1
    ∧ StreamObjectNames.readChunks 1 (StreamObjectNames.new ["b", "a"]) =
        ((StreamObjectNames.new ["b", "a"]).read_stream_object_names
            ((StreamObjectNames.new ["b", "a"]).total_count)).1.1
    ∧ (0 : Nat) ≤ 3
    ∧ (((⟨["a", "b", "c"], 0⟩ : StreamObjectNames).skip_stream_object_names 1).2.read_stream_object_names 1).1.1 =
        (((⟨["a", "b", "c"], 0⟩ : StreamObjectNames).read_stream_object_names (1 + 1)).1.1).drop 1 :=
  ⟨claim_C7.1 ["b", "a"],
   by decide,
   claim_C7.2.1 ["b", "a"] 1 (by decide),
   by decide,
   claim_C7.2.2 ⟨["a", "b", "c"], 0⟩ 1 1 (by decide)⟩

/-! ### Claim theorems for the storage engine -/

theorem getObject_eq_some {c o : String} {s : Storage} {obj : StoredObject}
    (h : getObject c o s = some obj) :
    ∃ cont, lookupA c s = some cont ∧ lookupA o cont.objects = some obj := by
  cases hc : lookupA c s with
  | none => simp [getObject, hc] at h
  | some cont => exact ⟨cont, rfl, by simpa [getObject, hc] using h⟩

/-- C4: for every existing container `c`, object name `o` and byte sequence
`data`, `put_object_data` succeeds (overwriting silently even when `o`
exists), and a subsequent rangeless `get_object_data` returns exactly
`data`. -/
theorem claim_C4 (c o : String) (d : List Nat) (t : Nat) (s : Storage)
    (cont : StoredContainer) (h : lookupA c s = some cont) :
    (EmbeddedStorage.put_object_data c o d t s).1 = .ok ()
    ∧ EmbeddedStorage.get_object_data c o none none
        (EmbeddedStorage.put_object_data c o d t s).2 = .ok d := by
  have hput : EmbeddedStorage.put_object_data c o d t s
      = (.ok (),
         updateA c
           (fun cont2 => { cont2 with
             objects := insertA o
               { metadata :=
                   { name := o, container := c, created_at := t, size := d.length },
                 data := d } cont2.objects }) s) := by
    simp [EmbeddedStorage.put_object_data, h]
  rw [hput]
  refine ⟨rfl, ?_⟩
  simp [EmbeddedStorage.get_object_data, lookupA_updateA_self, h,
    lookupA_insertA_self]

/-- C4 witness: put then rangeless get round-trips `[1, 2]` in an existing
container. -/
theorem claim_C4_witness :
    lookupA "c" [("c", (⟨⟨"c", 0⟩, []⟩ : StoredContainer))] = some ⟨⟨"c", 0⟩, []⟩
    ∧ (EmbeddedStorage.put_object_data "c" "o" [1, 2] 7
        [("c", ⟨⟨"c", 0⟩, []⟩)]).1 = .ok ()
    ∧ EmbeddedStorage.get_object_data "c" "o" none none
        (EmbeddedStorage.put_object_data "c" "o" [1, 2] 7
          [("c", ⟨⟨"c", 0⟩, []⟩)]).2 = .ok [1, 2] := by
  refine ⟨by decide, ?_, ?_⟩
  · exact (claim_C4 "c" "o" [1, 2] 7 _ ⟨⟨"c", 0⟩, []⟩ (by decide)).1
  · exact (claim_C4 "c" "o" [1, 2] 7 _ ⟨⟨"c", 0⟩, []⟩ (by decide)).2

/-- C10: for every existing object, the engine's `get_object_data` with
exactly one of `start`/`end` supplied ignores the partial range: the full
object data is returned with no range validation and no `InvalidRange`
error, whatever the supplied bound. -/
theorem claim_C10 (c o : String) (s : Storage) (obj : StoredObject)
    (st e : Nat) (h : getObject c o s = some obj) :
    EmbeddedStorage.get_object_data c o (some st) none s = .ok obj.data
    ∧ EmbeddedStorage.get_object_data c o none (some e) s = .ok obj.data := by
  obtain ⟨cont, hc, ho⟩ := getObject_eq_some h
  constructor <;> simp [EmbeddedStorage.get_object_data, hc, ho]

/-- C10 witness: a one-sided range with an absurdly large bound still
returns the whole object. -/
theorem claim_C10_witness :
    getObject "c" "o" [("c", ⟨⟨"c", 0⟩, [("o", ⟨⟨"o", "c", 0, 1⟩, [5]⟩)]⟩)]
        = some ⟨⟨"o", "c", 0, 1⟩, [5]⟩
    ∧ EmbeddedStorage.get_object_data "c" "o" (some 999) none
        [("c", ⟨⟨"c", 0⟩, [("o", ⟨⟨"o", "c", 0, 1⟩, [5]⟩)]⟩)] = .ok [5]
    ∧ EmbeddedStorage.get_object_data "c" "o" none (some 999)
        [("c", ⟨⟨"c", 0⟩, [("o", ⟨⟨"o", "c", 0, 1⟩, [5]⟩)]⟩)] = .ok [5] := by
  refine ⟨by decide, ?_, ?_⟩
  · exact (claim_C10 "c" "o" _ ⟨⟨"o", "c", 0, 1⟩, [5]⟩ 999 999 (by decide)).1
  · exact (claim_C10 "c" "o" _ ⟨⟨"o", "c", 0, 1⟩, [5]⟩ 999 999 (by decide)).2

/-- C3 counterexample: at `start = 0`, `end = u64::MAX` on a non-empty
object — a range the claim covers, since `0 ≤ end` and `0 < size = 3` —
the `u64` sum `end + 1` wraps to `0`, the slice end is clamped to `0`, and
the call returns `Ok []` instead of the claimed
`data[0 ..= min(end, size-1)] = [1, 2, 3]` (in a debug build the overflow
panics instead; either way the claimed bytes are not returned). -/
theorem claim_C3_counterexample :
    (0 : Nat) ≤ u64Size - 1
    ∧ (0 : Nat) < 3
    ∧ EmbeddedStorage.get_object_data "c" "o" (some 0) (some (u64Size - 1))
        [("c", ⟨⟨"c", 0⟩, [("o", ⟨⟨"o", "c", 0, 3⟩, [1, 2, 3]⟩)]⟩)] = .ok []
    ∧ (Except.ok [] : Except BlobstoreError (List Nat)) ≠ .ok [1, 2, 3] :=
  ⟨Nat.zero_le _, by decide, rfl, by simp⟩

/-- C3 (amended): for every stored object and fully-supplied inclusive
range: a valid range (`start ≤ end`, `start < size`) whose upper bound does
not overflow (`end + 1 < 2^64`) returns exactly
`data[start ..= min(end, size-1)]` (at `end = u64::MAX` the wrapping of
`end + 1` clamps the slice end to `0`, so the returned bytes are empty
rather than the claimed slice); `start > end` or (`start ≥ size` while
`size > 0`) fails with `InvalidRange{start,end}`; and an empty object read
with no range returns empty data rather than an error. -/
theorem claim_C3 (c o : String) (s : Storage) (obj : StoredObject)
    (st e : Nat) (h : getObject c o s = some obj) :
    (st ≤ e → st < obj.data.length → e + 1 < u64Size →
      EmbeddedStorage.get_object_data c o (some st) (some e) s
        = .ok ((obj.data.drop st).take (min (e + 1) obj.data.length - st)))
    ∧ (st > e →
      EmbeddedStorage.get_object_data c o (some st) (some e) s
        = .error (.InvalidRange st e))
    ∧ (st ≥ obj.data.length → 0 < obj.data.length →
      EmbeddedStorage.get_object_data c o (some st) (some e) s
        = .error (.InvalidRange st e))
    ∧ (obj.data.length = 0 →
      EmbeddedStorage.get_object_data c o none none s = .ok []) := by
  obtain ⟨cont, hc, ho⟩ := getObject_eq_some h
  refine ⟨?_, ?_, ?_, ?_⟩
  · intro h1 h2 he
    have hval : validate_range st e obj.data.length = .ok () := by
      have hA : ¬ st > e := by omega
      have hB : ¬ (st ≥ obj.data.length ∧ obj.data.length > 0) := by omega
      simp [validate_range, hA, hB]
    have hmod : (e + 1) % u64Size = e + 1 := Nat.mod_eq_of_lt he
    simp [EmbeddedStorage.get_object_data, hc, ho, hval, hmod, List.drop_take]
  · intro h1
    have hval : validate_range st e obj.data.length = .error (.InvalidRange st e) := by
      simp [validate_range, h1]
    simp [EmbeddedStorage.get_object_data, hc, ho, hval]
  · intro h1 h2
    have hval : validate_range st e obj.data.length = .error (.InvalidRange st e) := by
      by_cases hgt : st > e
      · simp [validate_range, hgt]
      · have hB : st ≥ obj.data.length ∧ obj.data.length > 0 := ⟨h1, h2⟩
        simp [validate_range, hgt, hB]
    simp [EmbeddedStorage.get_object_data, hc, ho, hval]
  · intro h0
    have hdat : obj.data = [] := List.length_eq_zero.mp h0
    simp [EmbeddedStorage.get_object_data, hc, ho, hdat]

/-- C3 witness: on a three-byte object, the non-overflowing range `[0,1]`
returns the first two bytes, and range `[5,2]` yields `InvalidRange`. -/
theorem claim_C3_witness :
    getObject "c" "o" [("c", ⟨⟨"c", 0⟩, [("o", ⟨⟨"o", "c", 0, 3⟩, [1, 2, 3]⟩)]⟩)]
        = some ⟨⟨"o", "c", 0, 3⟩, [1, 2, 3]⟩
    ∧ (0 : Nat) ≤ 1 ∧ (0 : Nat) < 3 ∧ (1 : Nat) + 1 < u64Size ∧ (5 : Nat) > 2
    ∧ EmbeddedStorage.get_object_data "c" "o" (some 0) (some 1)
        [("c", ⟨⟨"c", 0⟩, [("o", ⟨⟨"o", "c", 0, 3⟩, [1, 2, 3]⟩)]⟩)]
        = .ok ((([1, 2, 3] : List Nat).drop 0).take (min (1 + 1) 3 - 0))
    ∧ EmbeddedStorage.get_object_data "c" "o" (some 5) (some 2)
        [("c", ⟨⟨"c", 0⟩, [("o", ⟨⟨"o", "c", 0, 3⟩, [1, 2, 3]⟩)]⟩)]
        = .error (.InvalidRange 5 2) := by
  refine ⟨by decide, by decide, by decide, by decide, by decide, ?_, ?_⟩
  · exact (claim_C3 "c" "o" _ ⟨⟨"o", "c", 0, 3⟩, [1, 2, 3]⟩ 0 1
      (by decide)).1 (by decide) (by decide) (by decide)
  · exact (claim_C3 "c" "o" _ ⟨⟨"o", "c", 0, 3⟩, [1, 2, 3]⟩ 5 2
      (by decide)).2.1 (by decide)

/-- C5: `Container::write_data` with an unfinished staged-write buffer
always fails with `InvalidOperation` and stores nothing (the state is
returned unchanged), regardless of the bytes already in the buffer; with a
finished buffer it forwards the accumulated bytes to the engine's
`put_object_data`. -/
theorem claim_C5 (cname name : String) (v : OutgoingValue) (t : Nat) (s : Storage) :
    (v.finished = false →
      Container.write_data cname name v t s
        = (.error (.InvalidOperation "OutgoingValue must be finished before writing"), s))
    ∧ (v.finished = true →
      Container.write_data cname name v t s
        = EmbeddedStorage.put_object_data cname name v.data t s) := by
  constructor <;> intro hv <;>
    simp [Container.write_data, OutgoingValue.is_finished, OutgoingValue.get_data, hv]

/-- C5 witness: a buffer holding two bytes but not finished is rejected and
the store is untouched; the same bytes in a finished buffer are forwarded. -/
theorem claim_C5_witness :
    (⟨[1, 2], false⟩ : OutgoingValue).finished = false
    ∧ (⟨[1, 2], true⟩ : OutgoingValue).finished = true
    ∧ Container.write_data "c" "o" ⟨[1, 2], false⟩ 7 []
        = (.error (.InvalidOperation "OutgoingValue must be finished before writing"), [])
    ∧ Container.write_data "c" "o" ⟨[1, 2], true⟩ 7 []
        = EmbeddedStorage.put_object_data "c" "o" [1, 2] 7 [] := by
  refine ⟨rfl, rfl, ?_, ?_⟩
  · exact (claim_C5 "c" "o" ⟨[1, 2], false⟩ 7 []).1 rfl
  · exact (claim_C5 "c" "o" ⟨[1, 2], true⟩ 7 []).2 rfl

/-- C1 counterexample: on a store holding container `"c"` with one object,
the public container-level `delete_container` does not fail with
`ContainerNotEmpty` and does not leave the store unchanged — it clears the
objects, deletes the container and succeeds, leaving the store empty. -/
theorem claim_C1_counterexample :
    Blobstore.delete_container "c"
        [("c", ⟨⟨"c", 0⟩, [("o", ⟨⟨"o", "c", 0, 1⟩, [42]⟩)]⟩)]
      = (.ok (), ([] : Storage)) := rfl

/-- C1 (amended): for every container that exists and still holds at least
one object, the engine's `EmbeddedStorage::delete_container` fails with
`ContainerNotEmpty` and leaves the whole store (hence the container and all
of its objects) unchanged; the public container-level `delete_container`
instead clears all objects first and then deletes the container, succeeding
whenever the container exists. -/
theorem claim_C1 :
    (∀ (name : String) (s : Storage) (cont : StoredContainer),
      lookupA name s = some cont → cont.objects ≠ [] →
      EmbeddedStorage.delete_container name s
        = (.error (.ContainerNotEmpty name), s))
    ∧ (∀ (name : String) (s : Storage) (cont : StoredContainer),
      lookupA name s = some cont →
      (Blobstore.delete_container name s).1 = .ok ()
      ∧ lookupA name (Blobstore.delete_container name s).2 = none) := by
  constructor
  · intro name s cont h hne
    have hemp : cont.objects.isEmpty = false := by
      cases hobj : cont.objects with
      | nil => exact absurd hobj hne
      | cons a l => rfl
    simp [EmbeddedStorage.delete_container, h, hemp]
  · intro name s cont h
    have hclear : EmbeddedStorage.clear_container name s
        = (.ok (), updateA name (fun c2 => { c2 with objects := [] }) s) := by
      simp [EmbeddedStorage.clear_container, h]
    have hlook : lookupA name (updateA name (fun c2 => { c2 with objects := [] }) s)
        = some { cont with objects := [] } := by
      rw [lookupA_updateA_self, h]
      rfl
    constructor
    · simp [Blobstore.delete_container, hclear, EmbeddedStorage.delete_container, hlook]
    · simp [Blobstore.delete_container, hclear, EmbeddedStorage.delete_container, hlook,
        lookupA_eraseA_self]

/-- C1 witness: both amended parts at a one-container, one-object store. -/
theorem claim_C1_witness :
    lookupA "c" ([("c", ⟨⟨"c", 0⟩, [("o", ⟨⟨"o", "c", 0, 1⟩, [42]⟩)]⟩)] : Storage)
        = some (⟨⟨"c", 0⟩, [("o", ⟨⟨"o", "c", 0, 1⟩, [42]⟩)]⟩ : StoredContainer)
    ∧ ([("o", (⟨⟨"o", "c", 0, 1⟩, [42]⟩ : StoredObject))] : List (String × StoredObject)) ≠ []
    ∧ EmbeddedStorage.delete_container "c"
        [("c", ⟨⟨"c", 0⟩, [("o", ⟨⟨"o", "c", 0, 1⟩, [42]⟩)]⟩)]
        = (.error (.ContainerNotEmpty "c"),
           [("c", ⟨⟨"c", 0⟩, [("o", ⟨⟨"o", "c", 0, 1⟩, [42]⟩)]⟩)])
    ∧ (Blobstore.delete_container "c"
        [("c", ⟨⟨"c", 0⟩, [("o", ⟨⟨"o", "c", 0, 1⟩, [42]⟩)]⟩)]).1 = .ok ()
    ∧ lookupA "c" (Blobstore.delete_container "c"
        [("c", ⟨⟨"c", 0⟩, [("o", ⟨⟨"o", "c", 0, 1⟩, [42]⟩)]⟩)]).2 = none := by
  refine ⟨by decide, by decide, ?_, ?_, ?_⟩
  · exact claim_C1.1 "c" _ ⟨⟨"c", 0⟩, [("o", ⟨⟨"o", "c", 0, 1⟩, [42]⟩)]⟩
      (by decide) (by decide)
  · exact (claim_C1.2 "c" _ ⟨⟨"c", 0⟩, [("o", ⟨⟨"o", "c", 0, 1⟩, [42]⟩)]⟩
      (by decide)).1
  · exact (claim_C1.2 "c" _ ⟨⟨"c", 0⟩, [("o", ⟨⟨"o", "c", 0, 1⟩, [42]⟩)]⟩
      (by decide)).2

/-- C9: moving an existing object onto itself succeeds and deletes it: the
copy step overwrites the object in place, and the delete step then removes
it. -/
theorem claim_C9 (x : ObjectId) (t : Nat) (s : Storage) (X : StoredObject)
    (h : getObject x.container x.object s = some X) :
    (EmbeddedStorage.move_object x x t s).1 = .ok ()
    ∧ getObject x.container x.object (EmbeddedStorage.move_object x x t s).2 = none := by
  obtain ⟨cont, hc, ho⟩ := getObject_eq_some h
  have hsome : (lookupA x.container s).isSome = true := by simp [hc]
  have hcopy : EmbeddedStorage.copy_object x x t s
      = (.ok (),
         updateA x.container
           (fun c2 => { c2 with
             objects := insertA x.object
               { X with metadata :=
                 { X.metadata with
                   name := x.object, container := x.container, created_at := t } }
               c2.objects }) s) := by
    simp [EmbeddedStorage.copy_object, hc, ho, hsome]
  constructor
  · simp [EmbeddedStorage.move_object, hcopy, EmbeddedStorage.delete_object,
      lookupA_updateA_self, hc]
  · simp [EmbeddedStorage.move_object, hcopy, EmbeddedStorage.delete_object,
      getObject, lookupA_updateA_self, hc, lookupA_eraseA_self]

/-- C9 witness: a self-move of the only object leaves it absent. -/
theorem claim_C9_witness :
    getObject "c" "o" [("c", ⟨⟨"c", 0⟩, [("o", ⟨⟨"o", "c", 0, 1⟩, [9]⟩)]⟩)]
        = some ⟨⟨"o", "c", 0, 1⟩, [9]⟩
    ∧ (EmbeddedStorage.move_object ⟨"c", "o"⟩ ⟨"c", "o"⟩ 3
        [("c", ⟨⟨"c", 0⟩, [("o", ⟨⟨"o", "c", 0, 1⟩, [9]⟩)]⟩)]).1 = .ok ()
    ∧ getObject "c" "o" (EmbeddedStorage.move_object ⟨"c", "o"⟩ ⟨"c", "o"⟩ 3
        [("c", ⟨⟨"c", 0⟩, [("o", ⟨⟨"o", "c", 0, 1⟩, [9]⟩)]⟩)]).2 = none := by
  refine ⟨by decide, ?_, ?_⟩
  · exact (claim_C9 ⟨"c", "o"⟩ 3 _ ⟨⟨"o", "c", 0, 1⟩, [9]⟩ (by decide)).1
  · exact (claim_C9 ⟨"c", "o"⟩ 3 _ ⟨⟨"o", "c", 0, 1⟩, [9]⟩ (by decide)).2

/-! ### Copy/move state shapes -/

/-- The object `copy_object` writes at the destination: the source object
with `name`, `container` and `created_at` rewritten (the bytes and `size`
are kept). -/
def copiedObj (dest : ObjectId) (t : Nat) (X : StoredObject) : StoredObject :=
  { X with metadata :=
    { X.metadata with
      name := dest.object, container := dest.container, created_at := t } }

/-- The state produced by the success branch of `copy_object` /
`put_object_data`: insert `w` at `(cd, od)`. -/
def insertState (cd od : String) (w : StoredObject) (s : Storage) : Storage :=
  updateA cd (fun c2 => { c2 with objects := insertA od w c2.objects }) s

/-- The state produced by the success branch of `delete_object`: remove the
object at `(cd, od)`. -/
def deleteState (cd od : String) (s : Storage) : Storage :=
  updateA cd (fun c2 => { c2 with objects := eraseA od c2.objects }) s

theorem getObject_insertState_self (cd od : String) (w : StoredObject) (s : Storage)
    (h : (lookupA cd s).isSome = true) :
    getObject cd od (insertState cd od w s) = some w := by
  obtain ⟨cont, hl⟩ := Option.isSome_iff_exists.mp h
  simp [getObject, insertState, lookupA_updateA_self, hl, lookupA_insertA_self]

theorem getObject_insertState_ne_obj (cd o od : String) (w : StoredObject)
    (s : Storage) (hne : o ≠ od) :
    getObject cd o (insertState cd od w s) = getObject cd o s := by
  cases hl : lookupA cd s with
  | none => simp [getObject, insertState, lookupA_updateA_self, hl]
  | some cont =>
    simp [getObject, insertState, lookupA_updateA_self, hl, lookupA_insertA_ne hne]

theorem getObject_insertState_ne_cont (c o cd od : String) (w : StoredObject)
    (s : Storage) (hne : c ≠ cd) :
    getObject c o (insertState cd od w s) = getObject c o s := by
  simp [getObject, insertState, lookupA_updateA_ne hne]

theorem getObject_deleteState_self (cd od : String) (s : Storage) :
    getObject cd od (deleteState cd od s) = none := by
  cases hl : lookupA cd s with
  | none => simp [getObject, deleteState, lookupA_updateA_self, hl]
  | some cont =>
    simp [getObject, deleteState, lookupA_updateA_self, hl, lookupA_eraseA_self]

theorem getObject_deleteState_ne_obj (cd o od : String) (s : Storage)
    (hne : o ≠ od) :
    getObject cd o (deleteState cd od s) = getObject cd o s := by
  cases hl : lookupA cd s with
  | none => simp [getObject, deleteState, lookupA_updateA_self, hl]
  | some cont =>
    simp [getObject, deleteState, lookupA_updateA_self, hl, lookupA_eraseA_ne hne]

theorem getObject_deleteState_ne_cont (c o cd od : String) (s : Storage)
    (hne : c ≠ cd) :
    getObject c o (deleteState cd od s) = getObject c o s := by
  simp [getObject, deleteState, lookupA_updateA_ne hne]

theorem copy_object_eq (src dest : ObjectId) (t : Nat) (s : Storage)
    (X : StoredObject) (srcCont : StoredContainer)
    (hc : lookupA src.container s = some srcCont)
    (ho : lookupA src.object srcCont.objects = some X)
    (hd : (lookupA dest.container s).isSome = true) :
    EmbeddedStorage.copy_object src dest t s
      = (.ok (), insertState dest.container dest.object (copiedObj dest t X) s) := by
  simp [EmbeddedStorage.copy_object, hc, ho, hd, insertState, copiedObj]

theorem move_object_eq (src dest : ObjectId) (t : Nat) (s : Storage)
    (X : StoredObject) (srcCont : StoredContainer)
    (hc : lookupA src.container s = some srcCont)
    (ho : lookupA src.object srcCont.objects = some X)
    (hd : (lookupA dest.container s).isSome = true) :
    EmbeddedStorage.move_object src dest t s
      = (.ok (), deleteState src.container src.object
          (insertState dest.container dest.object (copiedObj dest t X) s)) := by
  have hcopy := copy_object_eq src dest t s X srcCont hc ho hd
  have hsome : (lookupA src.container
      (insertState dest.container dest.object (copiedObj dest t X) s)).isSome = true := by
    unfold insertState
    by_cases hcc : src.container = dest.container
    · rw [hcc, lookupA_updateA_self]
      obtain ⟨dc, hdc⟩ := Option.isSome_iff_exists.mp hd
      rw [hdc]
      rfl
    · rw [lookupA_updateA_ne hcc]
      simp [hc]
  obtain ⟨k, hk⟩ := Option.isSome_iff_exists.mp hsome
  simp [EmbeddedStorage.move_object, hcopy, EmbeddedStorage.delete_object, hk, deleteState]

/-- C2: after a successful `copy_object(src, dest)` the source object is
still present with its original bytes and the destination object's bytes
equal the source's; after a successful `move_object(src, dest)` with
`src ≠ dest` the source object is absent and the destination's bytes equal
the original source bytes; and when the destination container does not
exist, both `copy_object` and `move_object` fail with `ContainerNotFound`
and return the whole store unchanged. -/
theorem claim_C2 :
    (∀ (src dest : ObjectId) (t : Nat) (s : Storage) (X : StoredObject),
      getObject src.container src.object s = some X →
      (lookupA dest.container s).isSome = true →
      (EmbeddedStorage.copy_object src dest t s).1 = .ok ()
      ∧ (∃ Y, getObject src.container src.object
            (EmbeddedStorage.copy_object src dest t s).2 = some Y ∧ Y.data = X.data)
      ∧ (∃ Z, getObject dest.container dest.object
            (EmbeddedStorage.copy_object src dest t s).2 = some Z ∧ Z.data = X.data))
    ∧ (∀ (src dest : ObjectId) (t : Nat) (s : Storage) (X : StoredObject),
      getObject src.container src.object s = some X →
      (lookupA dest.container s).isSome = true →
      src ≠ dest →
      (EmbeddedStorage.move_object src dest t s).1 = .ok ()
      ∧ getObject src.container src.object
          (EmbeddedStorage.move_object src dest t s).2 = none
      ∧ (∃ Z, getObject dest.container dest.object
            (EmbeddedStorage.move_object src dest t s).2 = some Z ∧ Z.data = X.data))
    ∧ (∀ (src dest : ObjectId) (t : Nat) (s : Storage) (X : StoredObject),
      getObject src.container src.object s = some X →
      lookupA dest.container s = none →
      EmbeddedStorage.copy_object src dest t s
          = (.error (.ContainerNotFound dest.container), s)
      ∧ EmbeddedStorage.move_object src dest t s
          = (.error (.ContainerNotFound dest.container), s)) := by
  refine ⟨?_, ?_, ?_⟩
  · intro src dest t s X hX hd
    obtain ⟨srcCont, hc, ho⟩ := getObject_eq_some hX
    have hcopy := copy_object_eq src dest t s X srcCont hc ho hd
    refine ⟨by rw [hcopy], ?_, ?_⟩
    · rw [hcopy]
      by_cases hcc : src.container = dest.container
      · by_cases hoo : src.object = dest.object
        · refine ⟨copiedObj dest t X, ?_, rfl⟩
          rw [hcc, hoo]
          exact getObject_insertState_self _ _ _ _ hd
        · refine ⟨X, ?_, rfl⟩
          rw [hcc, getObject_insertState_ne_obj _ _ _ _ _ hoo, ← hcc]
          exact hX
      · refine ⟨X, ?_, rfl⟩
        rw [getObject_insertState_ne_cont _ _ _ _ _ _ hcc]
        exact hX
    · rw [hcopy]
      exact ⟨copiedObj dest t X, getObject_insertState_self _ _ _ _ hd, rfl⟩
  · intro src dest t s X hX hd hne
    obtain ⟨srcCont, hc, ho⟩ := getObject_eq_some hX
    have hmove := move_object_eq src dest t s X srcCont hc ho hd
    refine ⟨by rw [hmove], ?_, ?_⟩
    · rw [hmove]
      exact getObject_deleteState_self _ _ _
    · rw [hmove]
      by_cases hcc : dest.container = src.container
      · have hoo : dest.object ≠ src.object := by
          intro he
          apply hne
          obtain ⟨sc, so⟩ := src
          obtain ⟨dc, od⟩ := dest
          simp_all
        rw [hcc, getObject_deleteState_ne_obj _ _ _ _ hoo]
        refine ⟨copiedObj dest t X, ?_, rfl⟩
        rw [← hcc]
        exact getObject_insertState_self _ _ _ _ hd
      · rw [getObject_deleteState_ne_cont _ _ _ _ _ hcc]
        exact ⟨copiedObj dest t X, getObject_insertState_self _ _ _ _ hd, rfl⟩
  · intro src dest t s X hX hdn
    obtain ⟨srcCont, hc, ho⟩ := getObject_eq_some hX
    have hcopy : EmbeddedStorage.copy_object src dest t s
        = (.error (.ContainerNotFound dest.container), s) := by
      simp [EmbeddedStorage.copy_object, hc, ho, hdn]
    exact ⟨hcopy, by simp [EmbeddedStorage.move_object, hcopy]⟩

/-- C2 witness: copy keeps the source readable with the destination equal
to it; move leaves the source absent; with a missing destination container
both operations fail with `ContainerNotFound` and leave the store intact. -/
theorem claim_C2_witness :
    getObject "c1" "o1"
        [("c1", ⟨⟨"c1", 0⟩, [("o1", ⟨⟨"o1", "c1", 0, 2⟩, [7, 8]⟩)]⟩),
         ("c2", ⟨⟨"c2", 0⟩, []⟩)] = some ⟨⟨"o1", "c1", 0, 2⟩, [7, 8]⟩
    ∧ (lookupA "c2"
        ([("c1", ⟨⟨"c1", 0⟩, [("o1", ⟨⟨"o1", "c1", 0, 2⟩, [7, 8]⟩)]⟩),
          ("c2", ⟨⟨"c2", 0⟩, []⟩)] : Storage)).isSome = true
    ∧ (⟨"c1", "o1"⟩ : ObjectId) ≠ ⟨"c2", "o2"⟩
    ∧ lookupA "zz"
        ([("c1", ⟨⟨"c1", 0⟩, [("o1", ⟨⟨"o1", "c1", 0, 2⟩, [7, 8]⟩)]⟩),
          ("c2", ⟨⟨"c2", 0⟩, []⟩)] : Storage) = none
    ∧ (∃ Z, getObject "c2" "o2"
          (EmbeddedStorage.copy_object ⟨"c1", "o1"⟩ ⟨"c2", "o2"⟩ 1
            [("c1", ⟨⟨"c1", 0⟩, [("o1", ⟨⟨"o1", "c1", 0, 2⟩, [7, 8]⟩)]⟩),
             ("c2", ⟨⟨"c2", 0⟩, []⟩)]).2 = some Z ∧ Z.data = [7, 8])
    ∧ getObject "c1" "o1"
        (EmbeddedStorage.move_object ⟨"c1", "o1"⟩ ⟨"c2", "o2"⟩ 1
          [("c1", ⟨⟨"c1", 0⟩, [("o1", ⟨⟨"o1", "c1", 0, 2⟩, [7, 8]⟩)]⟩),
           ("c2", ⟨⟨"c2", 0⟩, []⟩)]).2 = none
    ∧ EmbeddedStorage.copy_object ⟨"c1", "o1"⟩ ⟨"zz", "o2"⟩ 1
        [("c1", ⟨⟨"c1", 0⟩, [("o1", ⟨⟨"o1", "c1", 0, 2⟩, [7, 8]⟩)]⟩),
         ("c2", ⟨⟨"c2", 0⟩, []⟩)]
        = (.error (.ContainerNotFound "zz"),
           [("c1", ⟨⟨"c1", 0⟩, [("o1", ⟨⟨"o1", "c1", 0, 2⟩, [7, 8]⟩)]⟩),
            ("c2", ⟨⟨"c2", 0⟩, []⟩)]) := by
  refine ⟨by decide, by decide, by decide, by decide, ?_, ?_, ?_⟩
  · exact (claim_C2.1 ⟨"c1", "o1"⟩ ⟨"c2", "o2"⟩ 1 _ ⟨⟨"o1", "c1", 0, 2⟩, [7, 8]⟩
      (by decide) (by decide)).2.2
  · exact (claim_C2.2.1 ⟨"c1", "o1"⟩ ⟨"c2", "o2"⟩ 1 _ ⟨⟨"o1", "c1", 0, 2⟩, [7, 8]⟩
      (by decide) (by decide) (by decide)).2.1
  · exact (claim_C2.2.2 ⟨"c1", "o1"⟩ ⟨"zz", "o2"⟩ 1 _ ⟨⟨"o1", "c1", 0, 2⟩, [7, 8]⟩
      (by decide) (by decide)).1

/-! ### Size-invariant preservation -/

theorem sizeInv_updateA {s : Storage} {c : String} {f : StoredContainer → StoredContainer}
    (hs : SizeInv s)
    (hf : ∀ cont, (c, cont) ∈ s →
      ∀ q ∈ (f cont).objects, q.2.metadata.size = q.2.data.length) :
    SizeInv (updateA c f s) := by
  intro p hp q hq
  rcases mem_updateA hp with hp | ⟨v, hv, rfl⟩
  · exact hs p hp q hq
  · exact hf v hv q hq

theorem sizeInv_create (name : String) (t : Nat) {s : Storage} (hs : SizeInv s) :
    SizeInv (EmbeddedStorage.create_container name t s).2 := by
  cases hl : lookupA name s with
  | some cont => simpa [EmbeddedStorage.create_container, hl] using hs
  | none =>
    simp only [EmbeddedStorage.create_container, hl]
    intro p hp q hq
    rcases mem_insertA hp with rfl | hp2
    · exact absurd hq (List.not_mem_nil q)
    · exact hs p hp2 q hq

theorem sizeInv_delete_container (name : String) {s : Storage} (hs : SizeInv s) :
    SizeInv (EmbeddedStorage.delete_container name s).2 := by
  cases hl : lookupA name s with
  | none => simpa [EmbeddedStorage.delete_container, hl] using hs
  | some cont =>
    by_cases he : cont.objects.isEmpty = true
    · simp only [EmbeddedStorage.delete_container, hl, he, if_true]
      intro p hp q hq
      exact hs p (mem_eraseA hp) q hq
    · simpa [EmbeddedStorage.delete_container, hl, he] using hs

theorem sizeInv_clear (name : String) {s : Storage} (hs : SizeInv s) :
    SizeInv (EmbeddedStorage.clear_container name s).2 := by
  cases hl : lookupA name s with
  | none => simpa [EmbeddedStorage.clear_container, hl] using hs
  | some cont =>
    simp only [EmbeddedStorage.clear_container, hl]
    refine sizeInv_updateA hs ?_
    intro cont2 _ q hq
    exact absurd hq (List.not_mem_nil q)

theorem sizeInv_put (c o : String) (d : List Nat) (t : Nat) {s : Storage}
    (hs : SizeInv s) :
    SizeInv (EmbeddedStorage.put_object_data c o d t s).2 := by
  cases hl : lookupA c s with
  | none => simpa [EmbeddedStorage.put_object_data, hl] using hs
  | some cont =>
    simp only [EmbeddedStorage.put_object_data, hl]
    refine sizeInv_updateA hs ?_
    intro cont2 hmem q hq
    rcases mem_insertA hq with rfl | hq2
    · rfl
    · exact hs (c, cont2) hmem q hq2

theorem sizeInv_delete_object (c o : String) {s : Storage} (hs : SizeInv s) :
    SizeInv (EmbeddedStorage.delete_object c o s).2 := by
  cases hl : lookupA c s with
  | none => simpa [EmbeddedStorage.delete_object, hl] using hs
  | some cont =>
    simp only [EmbeddedStorage.delete_object, hl]
    refine sizeInv_updateA hs ?_
    intro cont2 hmem q hq
    exact hs (c, cont2) hmem q (mem_eraseA hq)

theorem sizeInv_delete_objects (c : String) (names : List String) {s : Storage}
    (hs : SizeInv s) :
    SizeInv (EmbeddedStorage.delete_objects c names s).2 := by
  cases hl : lookupA c s with
  | none => simpa [EmbeddedStorage.delete_objects, hl] using hs
  | some cont =>
    simp only [EmbeddedStorage.delete_objects, hl]
    refine sizeInv_updateA hs ?_
    intro cont2 hmem q hq
    exact hs (c, cont2) hmem q (mem_foldl_eraseA names _ hq)

theorem sizeInv_copy (src dest : ObjectId) (t : Nat) {s : Storage} (hs : SizeInv s) :
    SizeInv (EmbeddedStorage.copy_object src dest t s).2 := by
  cases hc : lookupA src.container s with
  | none => simpa [EmbeddedStorage.copy_object, hc] using hs
  | some srcCont =>
    cases ho : lookupA src.object srcCont.objects with
    | none => simpa [EmbeddedStorage.copy_object, hc, ho] using hs
    | some X =>
      by_cases hd : (lookupA dest.container s).isSome = true
      · simp only [EmbeddedStorage.copy_object, hc, ho, hd, if_true]
        refine sizeInv_updateA hs ?_
        intro cont2 hmem q hq
        rcases mem_insertA hq with rfl | hq2
        · have hX : X.metadata.size = X.data.length :=
            hs (src.container, srcCont) (lookupA_mem hc) (src.object, X) (lookupA_mem ho)
          simpa using hX
        · exact hs (dest.container, cont2) hmem q hq2
      · simpa [EmbeddedStorage.copy_object, hc, ho, hd] using hs

theorem sizeInv_move (src dest : ObjectId) (t : Nat) {s : Storage} (hs : SizeInv s) :
    SizeInv (EmbeddedStorage.move_object src dest t s).2 := by
  have h1 := sizeInv_copy src dest t hs
  unfold EmbeddedStorage.move_object
  cases hres : EmbeddedStorage.copy_object src dest t s with
  | mk r s1 =>
    have hs1 : SizeInv s1 := by
      rw [hres] at h1
      exact h1
    cases r with
    | error e => exact hs1
    | ok u => exact sizeInv_delete_object src.container src.object hs1

theorem sizeInv_applyOp (op : Op) {s : Storage} (hs : SizeInv s) :
    SizeInv (applyOp op s).2 := by
  cases op with
  | createContainer name t => exact sizeInv_create name t hs
  | deleteContainer name => exact sizeInv_delete_container name hs
  | clearContainer name => exact sizeInv_clear name hs
  | putObject c o data t => exact sizeInv_put c o data t hs
  | deleteObject c o => exact sizeInv_delete_object c o hs
  | deleteObjects c names => exact sizeInv_delete_objects c names hs
  | copyObject src dest t => exact sizeInv_copy src dest t hs
  | moveObject src dest t => exact sizeInv_move src dest t hs

/-- C6: in every state reachable from the empty store by any sequence of
engine operations, every stored object's `metadata.size` equals the length
of its byte payload; and `put_object_data` replaces metadata and bytes
wholesale — after a put, the stored object is exactly the freshly built
record, with no partial update. -/
theorem claim_C6 :
    (∀ ops : List Op, SizeInv (runOps ops []))
    ∧ (∀ (c o : String) (d : List Nat) (t : Nat) (s : Storage)
        (cont : StoredContainer), lookupA c s = some cont →
        getObject c o (EmbeddedStorage.put_object_data c o d t s).2
          = some { metadata :=
                     { name := o, container := c, created_at := t, size := d.length },
                   data := d }) := by
  constructor
  · intro ops
    have hgen : ∀ (l : List Op) (s : Storage), SizeInv s → SizeInv (runOps l s) := by
      intro l
      induction l with
      | nil =>
        intro s hs
        simpa [runOps] using hs
      | cons op rest ih =>
        intro s hs
        have hstep := sizeInv_applyOp op hs
        simpa [runOps] using ih _ hstep
    exact hgen ops [] (by intro p hp; exact absurd hp (List.not_mem_nil p))
  · intro c o d t s cont h
    have hput : (EmbeddedStorage.put_object_data c o d t s).2
        = insertState c o
            { metadata :=
                { name := o, container := c, created_at := t, size := d.length },
              data := d } s := by
      simp [EmbeddedStorage.put_object_data, h, insertState]
    rw [hput]
    exact getObject_insertState_self _ _ _ _ (by simp [h])

/-- C6 witness: the invariant at a concrete reachable state, and a concrete
wholesale overwrite. -/
theorem claim_C6_witness :
    SizeInv (runOps [Op.createContainer "c" 0, Op.putObject "c" "o" [1, 2, 3] 1] [])
    ∧ lookupA "c" ([("c", ⟨⟨"c", 0⟩, [("o", ⟨⟨"o", "c", 0, 9⟩, [1]⟩)]⟩)] : Storage)
        = some ⟨⟨"c", 0⟩, [("o", ⟨⟨"o", "c", 0, 9⟩, [1]⟩)]⟩
    ∧ getObject "c" "o"
        (EmbeddedStorage.put_object_data "c" "o" [4] 2
          [("c", ⟨⟨"c", 0⟩, [("o", ⟨⟨"o", "c", 0, 9⟩, [1]⟩)]⟩)]).2
        = some ⟨⟨"o", "c", 2, 1⟩, [4]⟩ := by
  refine ⟨?_, by decide, ?_⟩
  · exact claim_C6.1 [Op.createContainer "c" 0, Op.putObject "c" "o" [1, 2, 3] 1]
  · exact claim_C6.2 "c" "o" [4] 2 _ ⟨⟨"c", 0⟩, [("o", ⟨⟨"o", "c", 0, 9⟩, [1]⟩)]⟩
      (by decide)

end Zolvery
